import Mathlib

/-!
# Verification of the `wit` dependency resolver against its specification

This development gives a shallow embedding of the core of the `wit`
package manager (the files `lib/workspace.py` and `lib/wit/gitrepo.py`)
and proves or refutes the specification's claims about it.

Conventions of the embedding:

* Python strings are Lean `String`s; Python string comparison (`<`, `>`)
  compares Unicode code points lexicographically and is embedded as
  `pyStrLt` / `pyStrGt` below.
* Every `git` subprocess invocation is an oracle: an environment record
  holds a pure function from the argument list to a process result
  (`Proc` = exit code, stdout, stderr).  The Python methods become Lean
  functions of that environment.
* Python exceptions and `sys.exit(1)` become `Except` error values.
-/

/-- A completed subprocess, as captured by `subprocess.run` in
`GitRepo._git_command`: exit code, stdout and stderr as text. -/
structure Proc where
  returncode : Nat
  stdout : String
  stderr : String
deriving DecidableEq, Repr

/-- The subprocess oracle: maps a `git` argument list to the process
result.  A pure model of `GitRepo._git_command`. -/
structure ProcEnv where
  run : List String → Proc

/-- Python whitespace characters stripped by `str.rstrip()`. -/
def pySpace (c : Char) : Bool :=
  c = ' ' || c = '\t' || c = '\n' || c = '\r' || c = '\x0b' || c = '\x0c'

/-- Embedding of Python `str.rstrip()`: drop trailing whitespace. -/
def pyRstrip (s : String) : String :=
  ⟨(s.data.reverse.dropWhile pySpace).reverse⟩

/-- Python's `<` on strings, on the underlying character lists: strict
lexicographic comparison of code points. -/
def pyLtChars : List Char → List Char → Bool
  | [], [] => false
  | [], _ :: _ => true
  | _ :: _, [] => false
  | a :: as, b :: bs =>
    if a.toNat < b.toNat then true
    else if b.toNat < a.toNat then false
    else pyLtChars as bs

/-- Python's `<` on strings. -/
def pyStrLt (a b : String) : Bool := pyLtChars a.data b.data

/-- Python's `>` on strings (`a > b` iff `b < a`). -/
def pyStrGt (a b : String) : Bool := pyStrLt b a

/-- Substring test on character lists (Python's `needle in hay`). -/
def containsSub (needle : List Char) : List Char → Bool
  | [] => needle.isEmpty
  | c :: cs => needle.isPrefixOf (c :: cs) || containsSub needle cs

/-- Python's `needle in hay` on strings. -/
def pyContains (hay needle : String) : Bool := containsSub needle.data hay.data

/-- Worker for Python `str.replace(pat, rep)`: scan left to right,
replacing every non-overlapping occurrence of `pat`.  A positive
`skip` means the scanner is inside an already-matched occurrence and
must pass over `skip` more characters; on a match at `c :: cs` the
remaining `pat.length - 1` matched characters of `cs` are skipped.
(The `!pat.isEmpty` guard keeps the function total; the source only
ever calls replace with the non-empty pattern `'.git'`.) -/
def pyReplaceAux (pat rep : List Char) : Nat → List Char → List Char
  | _, [] => []
  | skip + 1, _ :: cs => pyReplaceAux pat rep skip cs
  | 0, c :: cs =>
    if !pat.isEmpty && pat.isPrefixOf (c :: cs) then
      rep ++ pyReplaceAux pat rep (pat.length - 1) cs
    else
      c :: pyReplaceAux pat rep 0 cs

/-- Python `str.replace` on strings. -/
def pyReplace (s pat rep : String) : String :=
  ⟨pyReplaceAux pat.data rep.data 0 s.data⟩

/-- Split a character list at every `'/'`. -/
def splitSlash : List Char → List (List Char)
  | [] => [[]]
  | c :: cs =>
    if c = '/' then [] :: splitSlash cs
    else
      match splitSlash cs with
      | [] => [[c]]
      | h :: t => (c :: h) :: t

/-- Embedding of `pathlib.Path(p).name`: the final path component,
with empty and `'.'` components discarded. -/
def pathName (p : String) : String :=
  ⟨((splitSlash p.data).filter (fun c => !(c == []) && !(c == ['.']))).getLastD []⟩

/-!
## The error taxonomy of `lib/wit/gitrepo.py`

`GitError` is raised by `_git_check` with the command's arguments, exit
status, stdout and stderr.  `GitCommitNotFound` and `BadSource` are the
user-error classes declared in the same file.  `typeError` models a
Python `TypeError`, which arises when an exception class whose
`__init__` has required arguments is raised without them.
-/

inductive GErr where
  | gitError (args : List String) (returncode : Nat) (stdout stderr : String)
  | gitCommitNotFound
  | badSource (name source : String)
  | typeError (msg : String)
deriving DecidableEq, Repr

/-- Embedding of `GitRepo._git_check`: raise `GitError` (with the
command arguments and the captured output) iff the exit code is
non-zero. -/
def git_check (args : List String) (p : Proc) : Except GErr Unit :=
  if p.returncode ≠ 0 then
    .error (.gitError args p.returncode p.stdout p.stderr)
  else
    .ok ()

/-- Embedding of `GitRepo.commit_to_time` (gitrepo.py:140-143): run
`git log -n1 --format=%ct <hash>`, check the exit code, and return
`proc.stdout.rstrip()` — a string. -/
def commit_to_time (env : ProcEnv) (hash : String) : Except GErr String :=
  let proc := env.run ["log", "-n1", "--format=%ct", hash]
  match git_check ["log", "-n1", "--format=%ct", hash] proc with
  | .error e => .error e
  | .ok _ => .ok (pyRstrip proc.stdout)

/-- Embedding of `GitRepo.get_commit` (gitrepo.py:86-93): run
`git rev-parse <commit>`; if `_git_check` raises, retry once with
`origin/<commit>`; a failure of the second `_git_check` propagates
(as `GitError`).  On success return the rstripped stdout of whichever
process last succeeded. -/
def get_commit (env : ProcEnv) (commit : String) : Except GErr String :=
  let p1 := env.run ["rev-parse", commit]
  match git_check ["rev-parse", commit] p1 with
  | .ok _ => .ok (pyRstrip p1.stdout)
  | .error _ =>
    let p2 := env.run ["rev-parse", "origin/" ++ commit]
    match git_check ["rev-parse", "origin/" ++ commit] p2 with
    | .ok _ => .ok (pyRstrip p2.stdout)
    | .error e => .error e

/-- Embedding of `GitRepo.fetch` (gitrepo.py:69-81): run
`git fetch <source>` then `git fetch --all`; `_git_check` the FIRST
process.  If it failed and its stderr contains
`does not appear to be a git repository`, the source executes
`raise BadSource` — raising the class `BadSource` itself, which
instantiates it with zero arguments although `BadSource.__init__`
requires `name` and `source`; in Python this raises `TypeError`, which
the embedding records as `GErr.typeError`.  Otherwise the `GitError`
re-raises.  On success return `proc.returncode == 0`. -/
def fetch (env : ProcEnv) (source : String) : Except GErr Bool :=
  let proc := env.run ["fetch", source]
  let _ := env.run ["fetch", "--all"]
  match git_check ["fetch", source] proc with
  | .ok _ => .ok (proc.returncode = 0)
  | .error e =>
    if pyContains proc.stderr "does not appear to be a git repository" then
      .error (.typeError
        "BadSource.__init__() missing 2 required positional arguments: 'name' and 'source'")
    else
      .error e

/-- Embedding of `GitRepo.path_to_name` (gitrepo.py:199-209):
`Path(path).name.replace('.git', '')` — note that `str.replace`
removes EVERY occurrence of `'.git'`, not only a trailing one. -/
def path_to_name (path : String) : String :=
  pyReplace (pathName path) ".git" ""

/-- The function the spec's naming rule describes: the final path
segment with one TRAILING `'.git'` stripped and nothing else altered.
Stated from the spec's words, to be compared with `path_to_name`. -/
def path_to_name_spec (path : String) : String :=
  let b := pathName path
  if b.data.length ≥ 4 && b.data.drop (b.data.length - 4) == ".git".data then
    ⟨b.data.take (b.data.length - 4)⟩
  else b

/-!
## The resolver: `WorkSpace.update` in `lib/workspace.py`

`WorkSpace.update` drives the recency-wins resolution.  Its `git`
queries (`commit_to_time`, `is_ancestor`, `get_dependencies` with
`find_source` applied to each child) are subprocess-backed and are
modelled by the oracle `GitEnv`, keyed by the repository name (each
repository lives in the directory `<workspace>/<name>`).  The loop
itself, the queue discipline, the `version_selector_map` and
`source_map` dictionaries and the failure cases are translated line by
line from `WorkSpace.update` (workspace.py:101-209).
-/

/-- A dependency declaration as the resolver consumes it: the name,
the source (after `find_source`), and the revision to pin. -/
structure DepDecl where
  name : String
  source : String
  revision : String
deriving DecidableEq, Repr

/-- Oracle for the git facts the resolver queries.
`commitTime n c` is the string `commit_to_time` returns for commit `c`
of repository `n`; `isAncestor n a b` is `merge-base --is-ancestor a b`
run in repository `n`; `deps n c` is the dependency list read from
repository `n`'s manifest at commit `c` (with `find_source` already
applied to each child). -/
structure GitEnv where
  commitTime : String → String → String
  isAncestor : String → String → String → Bool
  deps : String → String → List DepDecl

/-- A queue element: the tuple `(commit_time, commit, name, repo)` of
workspace.py:121; of the `repo` object only its `source` matters to
the rest of the run, so the tuple carries the source. -/
structure QItem where
  time : String
  commit : String
  name : String
  source : String
deriving DecidableEq, Repr

/-- An entry of the written lockfile: `GitRepo(repo.source, commit,
name=repo.name, ...)` at workspace.py:202. -/
structure LockEntry where
  name : String
  source : String
  commit : String
deriving DecidableEq, Repr

/-- A ghost record of one parent-to-child edge examined at
workspace.py:156-185: the popped parent tuple's name, commit and time,
and the child declaration. -/
structure Edge where
  pname : String
  pcommit : String
  ptime : String
  child : DepDecl
deriving DecidableEq, Repr

/-- Lookup in a Python dict modelled as an association list. -/
def lookupAssoc {α : Type} : List (String × α) → String → Option α
  | [], _ => none
  | (k, v) :: rest, key => if k = key then some v else lookupAssoc rest key

/-- `d[k] = v` on a Python dict modelled as an association list:
replace in place if the key is present, else append (Python dicts
iterate in insertion order). -/
def setAssoc {α : Type} : List (String × α) → String → α → List (String × α)
  | [], key, v => [(key, v)]
  | (k, w) :: rest, key, v =>
    if k = key then (k, v) :: rest else (k, w) :: setAssoc rest key v

/-- Stable insertion of a queue element: it goes after every element
whose time is less than or equal to its own.  Folding this over a list
left to right is the (unique) stable ascending sort by the time key,
hence extensionally `queue.sort(key=lambda tup: tup[0])`. -/
def insertQ (x : QItem) : List QItem → List QItem
  | [] => [x]
  | y :: ys => if pyStrLt x.time y.time then x :: y :: ys else y :: insertQ x ys

/-- `queue.sort(key=lambda tup: tup[0])` (workspace.py:125,188):
stable sort, ascending in the Python string order of the time field. -/
def sortByTime (l : List QItem) : List QItem :=
  l.foldl (fun acc x => insertQ x acc) []

/-- The failure outcomes of one `update` run: the bare
`raise NotAncestorError` at workspace.py:138, the `sys.exit(1)` on
conflicting sources at workspace.py:164, and the `sys.exit(1)` on a
dependent newer than its dependee at workspace.py:181. -/
inductive UErr where
  | notAncestor
  | sourceConflict
  | depNewer
deriving DecidableEq, Repr

/-- The resolver's mutable state: the work queue, the
`version_selector_map` (name to selected commit and source, in
insertion order), and the `source_map`.  `pushed` and `edges` are
ghost instrumentation recording every tuple ever placed in the queue
and every parent-to-child edge examined; they influence nothing. -/
structure RState where
  queue : List QItem
  vsm : List (String × (String × String))
  sourceMap : List (String × String)
  pushed : List (String × String)
  edges : List Edge
deriving Repr

/-- The child loop of workspace.py:156-185, for one popped parent
tuple with time `ptime`.  For each child: if `source_map` holds a
different source for its name, `sys.exit(1)` (source conflict); then
compare the child's commit time with the parent's (Python string
comparison, since `commit_to_time` returns strings); if strictly
newer, `sys.exit(1)`; else append the child tuple to the queue and
record its source. -/
def processDeps (env : GitEnv) (ptime : String) :
    List DepDecl → List QItem → List (String × String) →
    Except UErr (List QItem × List (String × String))
  | [], queue, smap => .ok (queue, smap)
  | d :: rest, queue, smap =>
    let conflict := match lookupAssoc smap d.name with
      | some s => d.source != s
      | none => false
    if conflict then .error .sourceConflict
    else
      let dtime := env.commitTime d.name d.revision
      if pyStrGt dtime ptime then .error .depNewer
      else
        processDeps env ptime rest
          (queue ++ [⟨dtime, d.revision, d.name, d.source⟩])
          (setAssoc smap d.name d.source)

/-- Result of one iteration of the `while queue:` loop. -/
inductive StepRes where
  | done : List LockEntry → StepRes
  | fail : UErr → StepRes
  | next : RState → StepRes
deriving Repr

/-- One iteration of the `while queue:` loop (workspace.py:128-190).
`queue.pop()` removes the LAST element (the greatest commit time).
If the name is already selected, check `is_ancestor(commit, selected)`
and either discard the tuple or raise `NotAncestorError`; otherwise
select it, examine its children, and re-sort the queue.  An empty
queue ends the loop and the lockfile is assembled from the
`version_selector_map` in insertion order (workspace.py:198-208). -/
def updateStep (env : GitEnv) (s : RState) : StepRes :=
  match s.queue.getLast? with
  | none =>
    .done (s.vsm.map (fun e => ⟨e.1, e.2.2, e.2.1⟩))
  | some it =>
    match lookupAssoc s.vsm it.name with
    | some sel =>
      if env.isAncestor it.name it.commit sel.1 then
        .next { s with queue := s.queue.dropLast }
      else
        .fail .notAncestor
    | none =>
      match processDeps env it.time (env.deps it.name it.commit)
          s.queue.dropLast s.sourceMap with
      | .error e => .fail e
      | .ok (q'', smap') =>
        .next { queue := sortByTime q''
                vsm := setAssoc s.vsm it.name (it.commit, it.source)
                sourceMap := smap'
                pushed := s.pushed ++
                  (env.deps it.name it.commit).map (fun d => (d.name, d.revision))
                edges := s.edges ++
                  (env.deps it.name it.commit).map (fun d => ⟨it.name, it.commit, it.time, d⟩) }

/-- Outcome of a whole run: success carries the written lockfile and
the final state (for its ghost fields); `err` is an aborted run (no
lockfile is written); `out` is fuel exhaustion of the model. -/
inductive UResult where
  | ok : List LockEntry → RState → UResult
  | err : UErr → UResult
  | out : UResult
deriving Repr

/-- Iterate `updateStep` with fuel. -/
def runUpdate (env : GitEnv) : Nat → RState → UResult
  | 0, _ => .out
  | fuel + 1, s =>
    match updateStep env s with
    | .done lock => .ok lock s
    | .fail e => .err e
    | .next s' => runUpdate env fuel s'

/-- The seeding phase of `WorkSpace.update` (workspace.py:108-126):
one tuple per root-manifest entry, `source_map[name] = source` for
each (later entries overwrite earlier ones unchecked), then sort the
queue by commit time. -/
def seedState (env : GitEnv) (roots : List DepDecl) : RState :=
  { queue := sortByTime (roots.map (fun r =>
      ⟨env.commitTime r.name r.revision, r.revision, r.name, r.source⟩))
    vsm := []
    sourceMap := roots.foldl (fun m r => setAssoc m r.name r.source) []
    pushed := roots.map (fun r => (r.name, r.revision))
    edges := [] }

/-- `WorkSpace.update` (workspace.py:101-209): seed from the root
manifest, then run the loop. -/
def update (env : GitEnv) (roots : List DepDecl) (fuel : Nat) : UResult :=
  runUpdate env fuel (seedState env roots)

/-- The queue tuple built for a dependency declaration `d`
(workspace.py:184). -/
def mkItem (env : GitEnv) (d : DepDecl) : QItem :=
  ⟨env.commitTime d.name d.revision, d.revision, d.name, d.source⟩

/-!
## Dictionary, queue and loop lemmas
-/

theorem lookupAssoc_setAssoc_self {α : Type} (m : List (String × α)) (k : String) (v : α) :
    lookupAssoc (setAssoc m k v) k = some v := by
  induction m with
  | nil => simp [setAssoc, lookupAssoc]
  | cons hd tl ih =>
    by_cases h : hd.1 = k
    · simp [setAssoc, lookupAssoc, h]
    · simp [setAssoc, lookupAssoc, h, ih]

theorem lookupAssoc_setAssoc_ne {α : Type} (m : List (String × α)) (k key : String) (v : α)
    (h : k ≠ key) : lookupAssoc (setAssoc m key v) k = lookupAssoc m k := by
  have h' : ¬ key = k := fun e => h (Eq.symm e)
  induction m with
  | nil => simp [setAssoc, lookupAssoc, h']
  | cons hd tl ih =>
    obtain ⟨k0, w0⟩ := hd
    by_cases hk : k0 = key
    · subst hk
      simp [setAssoc, lookupAssoc, h']
    · simp [setAssoc, lookupAssoc, hk, ih]

theorem lookupAssoc_mem {α : Type} (m : List (String × α)) (k : String) (v : α)
    (h : lookupAssoc m k = some v) : (k, v) ∈ m := by
  induction m with
  | nil => simp [lookupAssoc] at h
  | cons hd tl ih =>
    obtain ⟨k0, w0⟩ := hd
    simp only [lookupAssoc] at h
    by_cases hk : k0 = k
    · subst hk
      simp at h
      subst h
      exact List.mem_cons_self _ _
    · simp [hk] at h
      exact List.mem_cons_of_mem _ (ih h)

theorem mem_insertQ (x y : QItem) (l : List QItem) :
    x ∈ insertQ y l ↔ x = y ∨ x ∈ l := by
  induction l with
  | nil => simp [insertQ]
  | cons hd tl ih =>
    simp only [insertQ]
    by_cases h : pyStrLt y.time hd.time = true
    · simp [h]
    · simp only [h, if_neg]
      simp [ih]
      tauto

theorem mem_sortAux (l : List QItem) :
    ∀ (acc : List QItem) (x : QItem),
      x ∈ l.foldl (fun acc x => insertQ x acc) acc ↔ x ∈ acc ∨ x ∈ l := by
  induction l with
  | nil => simp
  | cons hd tl ih =>
    intro acc x
    simp only [List.foldl_cons]
    rw [ih]
    simp [mem_insertQ]
    tauto

theorem mem_sortByTime (x : QItem) (l : List QItem) :
    x ∈ sortByTime l ↔ x ∈ l := by
  simpa [sortByTime] using mem_sortAux l [] x

theorem getLast?_none {α : Type} (l : List α) (h : l.getLast? = none) : l = [] := by
  cases l with
  | nil => rfl
  | cons a as => simp [List.getLast?_eq_getLast] at h

theorem getLast?_decomp {α : Type} :
    ∀ (l : List α) (x : α), l.getLast? = some x → l = l.dropLast ++ [x]
  | [], x, h => by simp at h
  | [a], x, h => by
    simp [List.getLast?] at h
    simp [h]
  | a :: b :: t, x, h => by
    rw [List.getLast?_cons_cons] at h
    have ih := getLast?_decomp (b :: t) x h
    calc a :: b :: t = a :: ((b :: t).dropLast ++ [x]) := by rw [← ih]
    _ = (a :: b :: t).dropLast ++ [x] := by simp [List.dropLast]

theorem processDeps_ok (env : GitEnv) (t : String) :
    ∀ (ds : List DepDecl) (q : List QItem) (m : List (String × String))
      (q' : List QItem) (m' : List (String × String)),
      processDeps env t ds q m = .ok (q', m') →
      q' = q ++ ds.map (mkItem env) ∧
      ∀ d ∈ ds, pyStrGt (env.commitTime d.name d.revision) t = false := by
  intro ds
  induction ds with
  | nil =>
    intro q m q' m' h
    simp [processDeps] at h
    simp [h.1.symm]
  | cons d rest ih =>
    intro q m q' m' h
    simp only [processDeps] at h
    split at h
    · exact absurd h (by simp)
    · split at h
      · exact absurd h (by simp)
      · rename_i hconf hgt
        have := ih _ _ _ _ h
        refine ⟨?_, ?_⟩
        · rw [this.1]
          simp [mkItem]
        · intro d' hd'
          rcases List.mem_cons.mp hd' with hd2 | hd2
          · rw [hd2]
            simpa using hgt
          · exact this.2 d' hd2

/-- Case analysis of a loop iteration that ends the run: the queue was
empty and the lockfile is the `version_selector_map` in insertion
order. -/
theorem updateStep_done_cases (env : GitEnv) (s : RState) (lock : List LockEntry)
    (h : updateStep env s = .done lock) :
    s.queue = [] ∧ lock = s.vsm.map (fun e => LockEntry.mk e.1 e.2.2 e.2.1) := by
  unfold updateStep at h
  split at h
  · rename_i hq
    simp at h
    exact ⟨getLast?_none _ hq, h.symm⟩
  · rename_i it hq
    split at h
    · split at h
      · simp at h
      · simp at h
    · split at h
      · simp at h
      · simp at h

/-- Case analysis of a loop iteration that continues: either the
popped name was already selected and the ancestor check passed (tuple
discarded, only the queue changes), or the popped name was new, it was
selected, and its children were appended. -/
theorem updateStep_next_cases (env : GitEnv) (s s' : RState)
    (h : updateStep env s = .next s') :
    ∃ it, s.queue.getLast? = some it ∧
      ((∃ sel, lookupAssoc s.vsm it.name = some sel ∧
          env.isAncestor it.name it.commit sel.1 = true ∧
          s' = { s with queue := s.queue.dropLast }) ∨
       (lookupAssoc s.vsm it.name = none ∧
        (∀ d ∈ env.deps it.name it.commit,
            pyStrGt (env.commitTime d.name d.revision) it.time = false) ∧
        (∃ smap',
          s' = { queue := sortByTime (s.queue.dropLast ++
                    (env.deps it.name it.commit).map (mkItem env))
                 vsm := setAssoc s.vsm it.name (it.commit, it.source)
                 sourceMap := smap'
                 pushed := s.pushed ++
                   (env.deps it.name it.commit).map (fun d => (d.name, d.revision))
                 edges := s.edges ++
                   (env.deps it.name it.commit).map
                     (fun d => ⟨it.name, it.commit, it.time, d⟩) }))) := by
  unfold updateStep at h
  split at h
  · simp at h
  · rename_i it hq
    refine ⟨it, hq, ?_⟩
    split at h
    · rename_i sel hsel
      split at h
      · rename_i hanc
        cases h
        exact Or.inl ⟨sel, hsel, hanc, rfl⟩
      · simp at h
    · rename_i hsel
      split at h
      · simp at h
      · rename_i q'' smap' hpd
        have hq2 := (processDeps_ok env it.time _ _ _ _ _ hpd).1
        have hmono := (processDeps_ok env it.time _ _ _ _ _ hpd).2
        cases h
        exact Or.inr ⟨hsel, hmono, smap', by rw [← hq2]⟩

/-- A continuing iteration never changes an existing selection. -/
theorem updateStep_vsm_mono (env : GitEnv) (s s' : RState)
    (h : updateStep env s = .next s') (n : String) (v : String × String)
    (hv : lookupAssoc s.vsm n = some v) : lookupAssoc s'.vsm n = some v := by
  obtain ⟨it, hq, hcase | hcase⟩ := updateStep_next_cases env s s' h
  · obtain ⟨sel, hsel, hanc, hs2⟩ := hcase
    rw [hs2]
    exact hv
  · obtain ⟨hsel, hmono, smap', hs2⟩ := hcase
    rw [hs2]
    have hne : n ≠ it.name := by
      intro e
      rw [e, hsel] at hv
      cases hv
    show lookupAssoc (setAssoc s.vsm it.name (it.commit, it.source)) n = some v
    rw [lookupAssoc_setAssoc_ne s.vsm n it.name (it.commit, it.source) hne]
    exact hv

/-- A successful run ends with an empty queue, and the lockfile it
writes is exactly the final `version_selector_map`, in insertion
order. -/
theorem runUpdate_ok_facts (env : GitEnv) :
    ∀ (fuel : Nat) (s : RState) (lock : List LockEntry) (sf : RState),
      runUpdate env fuel s = .ok lock sf →
      sf.queue = [] ∧ lock = sf.vsm.map (fun e => LockEntry.mk e.1 e.2.2 e.2.1)
  | 0, s, lock, sf, h => by simp [runUpdate] at h
  | fuel + 1, s, lock, sf, h => by
    simp only [runUpdate] at h
    split at h
    · rename_i lock0 hstep
      cases h
      exact updateStep_done_cases env s _ hstep
    · simp at h
    · rename_i s2 hstep
      exact runUpdate_ok_facts env fuel s2 lock sf h

/-- Across a whole successful run, an existing selection is never
changed. -/
theorem runUpdate_vsm_mono (env : GitEnv) :
    ∀ (fuel : Nat) (s : RState) (lock : List LockEntry) (sf : RState),
      runUpdate env fuel s = .ok lock sf →
      ∀ (n : String) (v : String × String),
        lookupAssoc s.vsm n = some v → lookupAssoc sf.vsm n = some v
  | 0, s, lock, sf, h => by simp [runUpdate] at h
  | fuel + 1, s, lock, sf, h => by
    simp only [runUpdate] at h
    split at h
    · rename_i lock0 hstep
      cases h
      intro n v hv
      exact hv
    · simp at h
    · rename_i s2 hstep
      intro n v hv
      exact runUpdate_vsm_mono env fuel s2 lock sf h n v
        (updateStep_vsm_mono env s s2 hstep n v hv)

/-- **C9.** During a single `WorkSpace.update` run the version
selector map is written at most once per name: a continuing loop
iteration preserves every existing binding unchanged, hence across a
whole successful run the binding created when a name's first tuple was
popped survives to the end, and the written lockfile contains exactly
that first selection (name, source, commit) for the name.  Later
tuples for an already-bound name are only checked and discarded
(`updateStep_next_cases`, first disjunct). -/
theorem C9_selection_written_once :
    (∀ (env : GitEnv) (s s' : RState), updateStep env s = .next s' →
       ∀ (n : String) (v : String × String),
         lookupAssoc s.vsm n = some v → lookupAssoc s'.vsm n = some v) ∧
    (∀ (env : GitEnv) (fuel : Nat) (s : RState) (lock : List LockEntry) (sf : RState),
       runUpdate env fuel s = .ok lock sf →
       ∀ (n : String) (v : String × String),
         lookupAssoc s.vsm n = some v →
           lookupAssoc sf.vsm n = some v ∧ LockEntry.mk n v.2 v.1 ∈ lock) := by
  refine ⟨updateStep_vsm_mono, ?_⟩
  intro env fuel s lock sf h n v hv
  have hsf := runUpdate_vsm_mono env fuel s lock sf h n v hv
  refine ⟨hsf, ?_⟩
  rw [(runUpdate_ok_facts env fuel s lock sf h).2]
  exact List.mem_map_of_mem _ (lookupAssoc_mem sf.vsm n v hsf)

/-- Trivial environment for the C9 witness run. -/
def envW9 : GitEnv := ⟨fun _ _ => "0", fun _ _ _ => false, fun _ _ => []⟩

/-- A state with one selection already made and an empty queue. -/
def sW9 : RState := ⟨[], [("a", ("c", "s"))], [], [], []⟩

/-- Witness for C9: a concrete run in which an existing binding
survives and lands in the lockfile. -/
theorem C9_witness :
    runUpdate envW9 1 sW9 = .ok [LockEntry.mk "a" "s" "c"] sW9 ∧
    (lookupAssoc sW9.vsm "a" = some ("c", "s") ∧
     LockEntry.mk "a" "s" "c" ∈ [LockEntry.mk "a" "s" "c"]) :=
  ⟨rfl, C9_selection_written_once.2 envW9 1 sW9 [LockEntry.mk "a" "s" "c"] sW9 rfl
    "a" ("c", "s") rfl⟩

/-- Invariant behind claim C1: every tuple ever placed in the queue is
either still in the queue, or its name is selected and the selected
commit includes it (equals it, or the ancestor check vouched for it). -/
def InvC1 (env : GitEnv) (s : RState) : Prop :=
  ∀ p ∈ s.pushed,
    (∃ it ∈ s.queue, it.name = p.1 ∧ it.commit = p.2) ∨
    (∃ c src, lookupAssoc s.vsm p.1 = some (c, src) ∧
      (p.2 = c ∨ env.isAncestor p.1 p.2 c = true))

theorem invC1_seed (env : GitEnv) (roots : List DepDecl) :
    InvC1 env (seedState env roots) := by
  intro p hp
  left
  obtain ⟨r, hr, hpr⟩ := List.mem_map.mp hp
  refine ⟨mkItem env r, ?_, ?_, ?_⟩
  · show mkItem env r ∈ sortByTime _
    rw [mem_sortByTime]
    exact List.mem_map_of_mem _ hr
  · rw [← hpr]
    rfl
  · rw [← hpr]
    rfl

theorem invC1_step (env : GitEnv) (s s' : RState)
    (h : updateStep env s = .next s') (hinv : InvC1 env s) : InvC1 env s' := by
  obtain ⟨it, hq, hcase | hcase⟩ := updateStep_next_cases env s s' h
  · obtain ⟨sel, hsel, hanc, hs2⟩ := hcase
    subst hs2
    intro p hp
    rcases hinv p hp with ⟨it0, hit0, hn, hc⟩ | ⟨c, src, hv, hcond⟩
    · have hdecomp := getLast?_decomp s.queue it hq
      rw [hdecomp] at hit0
      rcases List.mem_append.mp hit0 with hmem | hmem
      · exact Or.inl ⟨it0, hmem, hn, hc⟩
      · have heq : it0 = it := by simpa using hmem
        subst heq
        right
        obtain ⟨selc, sels⟩ := sel
        refine ⟨selc, sels, by rw [← hn]; exact hsel, Or.inr ?_⟩
        rw [← hn, ← hc]
        exact hanc
    · exact Or.inr ⟨c, src, hv, hcond⟩
  · obtain ⟨hsel, hmono, smap', hs2⟩ := hcase
    subst hs2
    intro p hp
    rcases List.mem_append.mp hp with hold | hnew
    · rcases hinv p hold with ⟨it0, hit0, hn, hc⟩ | ⟨c, src, hv, hcond⟩
      · have hdecomp := getLast?_decomp s.queue it hq
        rw [hdecomp] at hit0
        rcases List.mem_append.mp hit0 with hmem | hmem
        · left
          refine ⟨it0, ?_, hn, hc⟩
          show it0 ∈ sortByTime _
          rw [mem_sortByTime]
          exact List.mem_append.mpr (Or.inl hmem)
        · have heq : it0 = it := by simpa using hmem
          subst heq
          right
          refine ⟨it0.commit, it0.source, ?_, Or.inl hc.symm⟩
          show lookupAssoc (setAssoc s.vsm it0.name (it0.commit, it0.source)) p.1 = _
          rw [← hn]
          exact lookupAssoc_setAssoc_self s.vsm it0.name (it0.commit, it0.source)
      · right
        have hne : p.1 ≠ it.name := by
          intro e
          rw [e, hsel] at hv
          cases hv
        refine ⟨c, src, ?_, hcond⟩
        show lookupAssoc (setAssoc s.vsm it.name (it.commit, it.source)) p.1 = _
        rw [lookupAssoc_setAssoc_ne s.vsm p.1 it.name (it.commit, it.source) hne]
        exact hv
    · obtain ⟨d, hd, hpd⟩ := List.mem_map.mp hnew
      left
      refine ⟨mkItem env d, ?_, ?_, ?_⟩
      · show mkItem env d ∈ sortByTime _
        rw [mem_sortByTime]
        exact List.mem_append.mpr (Or.inr (List.mem_map_of_mem _ hd))
      · rw [← hpd]
        rfl
      · rw [← hpd]
        rfl

theorem invC1_run (env : GitEnv) :
    ∀ (fuel : Nat) (s : RState) (lock : List LockEntry) (sf : RState),
      runUpdate env fuel s = .ok lock sf → InvC1 env s → InvC1 env sf
  | 0, s, lock, sf, h => by simp [runUpdate] at h
  | fuel + 1, s, lock, sf, h => by
    intro hinv
    simp only [runUpdate] at h
    split at h
    · rename_i lock0 hstep
      cases h
      exact hinv
    · simp at h
    · rename_i s2 hstep
      exact invC1_run env fuel s2 lock sf h (invC1_step env s s2 hstep hinv)

/-- **C1.** Recency dominates: in a successful `WorkSpace.update` run,
every commit `c'` that was requested for a name `n` — by the root
manifest or by the manifest (read at its selected commit) of any
dependency reached during the resolution; `sf.pushed` records exactly
these requests — is included in the final selection for `n`: `n` is
selected, and `c'` either equals the selected commit or was certified
an ancestor of it by the `is_ancestor` check of workspace.py:137. -/
theorem C1_recency_dominates (env : GitEnv) (roots : List DepDecl) (fuel : Nat)
    (lock : List LockEntry) (sf : RState)
    (h : update env roots fuel = .ok lock sf) :
    ∀ n c', (n, c') ∈ sf.pushed →
      lookupAssoc sf.vsm n ≠ none ∧
      (∀ c src, lookupAssoc sf.vsm n = some (c, src) →
        (c' = c ∨ env.isAncestor n c' c = true)) := by
  intro n c' hp
  have hsf := invC1_run env fuel (seedState env roots) lock sf h (invC1_seed env roots)
  have hq : sf.queue = [] := (runUpdate_ok_facts env fuel _ lock sf h).1
  rcases hsf (n, c') hp with ⟨it0, hit0, hn, hc⟩ | ⟨c, src, hv, hcond⟩
  · rw [hq] at hit0
    cases hit0
  · constructor
    · rw [hv]
      simp
    · intro c2 src2 hv2
      rw [hv] at hv2
      cases hv2
      exact hcond

/-- Environment for the C1 witness run: the spec's scenario 3, where
`b@B1` (time 200) pins `a@A2` (time 150), a descendant of the root's
`a@A1` (time 100). -/
def envC1w : GitEnv :=
  { commitTime := fun n c =>
      if n == "a" && c == "A1" then "100"
      else if n == "a" && c == "A2" then "150"
      else if n == "b" && c == "B1" then "200"
      else "0"
    isAncestor := fun _ a b => a == b || (a == "A1" && b == "A2")
    deps := fun n c =>
      if n == "b" && c == "B1" then [⟨"a", "/x/a.git", "A2"⟩] else [] }

def rootsC1w : List DepDecl := [⟨"a", "/x/a.git", "A1"⟩, ⟨"b", "/x/b.git", "B1"⟩]

def lockC1w : List LockEntry := [⟨"b", "/x/b.git", "B1"⟩, ⟨"a", "/x/a.git", "A2"⟩]

def sfC1w : RState :=
  { queue := []
    vsm := [("b", ("B1", "/x/b.git")), ("a", ("A2", "/x/a.git"))]
    sourceMap := [("a", "/x/a.git"), ("b", "/x/b.git")]
    pushed := [("a", "A1"), ("b", "B1"), ("a", "A2")]
    edges := [⟨"b", "B1", "200", ⟨"a", "/x/a.git", "A2"⟩⟩] }

/-- Witness for C1: in the concrete scenario-3 run, the root's request
`a@A1` is dominated by the final selection `a = A2`. -/
theorem C1_witness :
    update envC1w rootsC1w 10 = .ok lockC1w sfC1w ∧
    ("a", "A1") ∈ sfC1w.pushed ∧
    ("A1" = "A2" ∨ envC1w.isAncestor "a" "A1" "A2" = true) :=
  ⟨rfl, by decide,
    (C1_recency_dominates envC1w rootsC1w 10 lockC1w sfC1w rfl "a" "A1"
      (by decide)).2 "A2" "/x/a.git" rfl⟩

/-!
## Decimal digit strings

`commit_to_time` hands the resolver the committer time as the decimal
string printed by `git log --format=%ct`.  The resolver compares these
strings with Python's string `>`.  The following connects that string
order with the integer order of the denoted values: they agree exactly
on equal-length digit strings. -/

/-- The numeric value denoted by a decimal digit character. -/
def digitVal (c : Char) : Nat := c.toNat - 48

/-- `l` consists solely of ASCII decimal digits. -/
def allDigit : List Char → Bool
  | [] => true
  | c :: cs => (48 ≤ c.toNat && c.toNat ≤ 57) && allDigit cs

/-- The integer denoted by a list of decimal digits. -/
def natOfDigits : List Char → Nat
  | [] => 0
  | c :: cs => digitVal c * 10 ^ cs.length + natOfDigits cs

theorem natOfDigits_lt_pow (l : List Char) (h : allDigit l = true) :
    natOfDigits l < 10 ^ l.length := by
  induction l with
  | nil => simp [natOfDigits]
  | cons c cs ih =>
    simp only [allDigit, Bool.and_eq_true, decide_eq_true_eq] at h
    have hd : digitVal c ≤ 9 := by
      have := h.1.2
      simp only [digitVal]
      omega
    have hcs := ih h.2
    simp only [natOfDigits, List.length_cons]
    calc digitVal c * 10 ^ cs.length + natOfDigits cs
        < (digitVal c + 1) * 10 ^ cs.length := by
          have he : (digitVal c + 1) * 10 ^ cs.length
              = digitVal c * 10 ^ cs.length + 10 ^ cs.length := by ring
          omega
      _ ≤ 10 * 10 ^ cs.length := Nat.mul_le_mul_right _ (by omega)
      _ = 10 ^ (cs.length + 1) := by ring

theorem natOfDigits_head_lt (a b : Char) (as bs : List Char)
    (hlen : as.length = bs.length) (ha : allDigit as = true)
    (hd : digitVal a < digitVal b) :
    natOfDigits (a :: as) < natOfDigits (b :: bs) := by
  simp only [natOfDigits]
  have h1 : natOfDigits as < 10 ^ as.length := natOfDigits_lt_pow as ha
  have h2 : digitVal a * 10 ^ as.length + natOfDigits as
      < (digitVal a + 1) * 10 ^ as.length := by
    have he : (digitVal a + 1) * 10 ^ as.length
        = digitVal a * 10 ^ as.length + 10 ^ as.length := by ring
    omega
  have h3 : (digitVal a + 1) * 10 ^ as.length ≤ digitVal b * 10 ^ as.length :=
    Nat.mul_le_mul_right _ hd
  have h4 : digitVal b * 10 ^ as.length ≤ digitVal b * 10 ^ bs.length + natOfDigits bs := by
    rw [hlen]
    exact Nat.le_add_right _ _
  omega

/-- On equal-length digit strings, Python's lexicographic string
order coincides with the integer order of the denoted values. -/
theorem pyLtChars_iff_lt (as : List Char) : ∀ (bs : List Char),
    as.length = bs.length → allDigit as = true → allDigit bs = true →
    (pyLtChars as bs = true ↔ natOfDigits as < natOfDigits bs) := by
  induction as with
  | nil =>
    intro bs hlen _ _
    have hb : bs = [] := List.eq_nil_of_length_eq_zero hlen.symm
    subst hb
    simp [pyLtChars, natOfDigits]
  | cons a as2 ih =>
    intro bs hlen ha hb
    cases bs with
    | nil => simp at hlen
    | cons b bs2 =>
      have hlen2 : as2.length = bs2.length := by simpa using hlen
      simp only [allDigit, Bool.and_eq_true, decide_eq_true_eq] at ha hb
      simp only [pyLtChars]
      by_cases h1 : a.toNat < b.toNat
      · rw [if_pos h1]
        have hdv : digitVal a < digitVal b := by
          simp only [digitVal]
          have := ha.1.1
          omega
        exact ⟨fun _ => natOfDigits_head_lt a b as2 bs2 hlen2 ha.2 hdv, fun _ => rfl⟩
      · by_cases h2 : b.toNat < a.toNat
        · rw [if_neg h1, if_pos h2]
          have hdv : digitVal b < digitVal a := by
            simp only [digitVal]
            have := hb.1.1
            omega
          have hswap := natOfDigits_head_lt b a bs2 as2 hlen2.symm hb.2 hdv
          constructor
          · intro hfalse
            cases hfalse
          · intro hlt
            exact absurd hlt (by omega)
        · rw [if_neg h1, if_neg h2]
          rw [ih bs2 hlen2 ha.2 hb.2]
          have hdeq : digitVal a = digitVal b := by
            simp only [digitVal]
            omega
          simp only [natOfDigits, hdeq, hlen2]
          exact (Nat.add_lt_add_iff_left).symm

/-- Invariant behind claim C5: every queued tuple carries the commit
time the oracle assigns to its (name, commit), and every recorded edge
was admitted by the strictly-newer check of workspace.py:176. -/
def InvC5 (env : GitEnv) (s : RState) : Prop :=
  (∀ it ∈ s.queue, it.time = env.commitTime it.name it.commit) ∧
  (∀ e ∈ s.edges, e.ptime = env.commitTime e.pname e.pcommit ∧
     pyStrGt (env.commitTime e.child.name e.child.revision) e.ptime = false)

theorem invC5_seed (env : GitEnv) (roots : List DepDecl) :
    InvC5 env (seedState env roots) := by
  constructor
  · intro it hit
    simp only [seedState] at hit
    rw [mem_sortByTime] at hit
    obtain ⟨r, hr, hitr⟩ := List.mem_map.mp hit
    rw [← hitr]
  · intro e he
    simp only [seedState] at he
    cases he

theorem invC5_step (env : GitEnv) (s s' : RState)
    (h : updateStep env s = .next s') (hinv : InvC5 env s) : InvC5 env s' := by
  obtain ⟨it, hq, hcase | hcase⟩ := updateStep_next_cases env s s' h
  · obtain ⟨sel, hsel, hanc, hs2⟩ := hcase
    subst hs2
    constructor
    · intro it0 hit0
      apply hinv.1
      rw [getLast?_decomp s.queue it hq]
      exact List.mem_append.mpr (Or.inl hit0)
    · exact hinv.2
  · obtain ⟨hsel, hmono, smap', hs2⟩ := hcase
    subst hs2
    have hitq : it ∈ s.queue := by
      rw [getLast?_decomp s.queue it hq]
      exact List.mem_append.mpr (Or.inr (by simp))
    have hittime : it.time = env.commitTime it.name it.commit := hinv.1 it hitq
    constructor
    · intro it0 hit0
      have hit1 : it0 ∈ sortByTime (s.queue.dropLast ++
          (env.deps it.name it.commit).map (mkItem env)) := hit0
      rw [mem_sortByTime] at hit1
      rcases List.mem_append.mp hit1 with hmem | hmem
      · apply hinv.1
        rw [getLast?_decomp s.queue it hq]
        exact List.mem_append.mpr (Or.inl hmem)
      · obtain ⟨d, hd, hde⟩ := List.mem_map.mp hmem
        rw [← hde]
        rfl
    · intro e he
      rcases List.mem_append.mp he with hmem | hmem
      · exact hinv.2 e hmem
      · obtain ⟨d, hd, hde⟩ := List.mem_map.mp hmem
        rw [← hde]
        exact ⟨hittime, hmono d hd⟩

theorem invC5_run (env : GitEnv) :
    ∀ (fuel : Nat) (s : RState) (lock : List LockEntry) (sf : RState),
      runUpdate env fuel s = .ok lock sf → InvC5 env s → InvC5 env sf
  | 0, s, lock, sf, h => by simp [runUpdate] at h
  | fuel + 1, s, lock, sf, h => by
    intro hinv
    simp only [runUpdate] at h
    split at h
    · rename_i lock0 hstep
      cases h
      exact hinv
    · simp at h
    · rename_i s2 hstep
      exact invC5_run env fuel s2 lock sf h (invC5_step env s s2 hstep hinv)

/-- **C5.** Monotonicity of children.  (i) When a child declaration
whose source does not conflict has a commit time strictly greater (in
the string order the code uses) than the popped parent's time, the
child loop fails with the dependent-newer error of workspace.py:181.
(ii) In every successful run, every traversed parent-to-child edge
satisfies commit-time(child) ≤ commit-time(parent) in that string
order, and also numerically whenever both times are equal-length
decimal strings (as epoch-second outputs of `git log --format=%ct`
are). -/
theorem C5_child_monotonicity :
    (∀ (env : GitEnv) (t : String) (d : DepDecl) (ds : List DepDecl)
       (q : List QItem) (m : List (String × String)),
       (match lookupAssoc m d.name with
        | some s => d.source != s
        | none => false) = false →
       pyStrGt (env.commitTime d.name d.revision) t = true →
       processDeps env t (d :: ds) q m = .error .depNewer) ∧
    (∀ (env : GitEnv) (roots : List DepDecl) (fuel : Nat)
       (lock : List LockEntry) (sf : RState),
       update env roots fuel = .ok lock sf →
       ∀ e ∈ sf.edges,
         pyStrGt (env.commitTime e.child.name e.child.revision)
           (env.commitTime e.pname e.pcommit) = false ∧
         (allDigit (env.commitTime e.child.name e.child.revision).data = true →
          allDigit (env.commitTime e.pname e.pcommit).data = true →
          (env.commitTime e.child.name e.child.revision).data.length =
            (env.commitTime e.pname e.pcommit).data.length →
          natOfDigits (env.commitTime e.child.name e.child.revision).data ≤
            natOfDigits (env.commitTime e.pname e.pcommit).data)) := by
  constructor
  · intro env t d ds q m hconf hgt
    simp only [processDeps, hconf, hgt]
    simp
  · intro env roots fuel lock sf h e he
    have hsf := invC5_run env fuel (seedState env roots) lock sf h (invC5_seed env roots)
    have hedge := hsf.2 e he
    have hstr : pyStrGt (env.commitTime e.child.name e.child.revision)
        (env.commitTime e.pname e.pcommit) = false := by
      rw [← hedge.1]
      exact hedge.2
    refine ⟨hstr, ?_⟩
    intro hdc hdp hlen
    have hiff := pyLtChars_iff_lt (env.commitTime e.pname e.pcommit).data
      (env.commitTime e.child.name e.child.revision).data hlen.symm hdp hdc
    by_contra hcon
    have hlt : natOfDigits (env.commitTime e.pname e.pcommit).data <
        natOfDigits (env.commitTime e.child.name e.child.revision).data := by omega
    have := hiff.mpr hlt
    rw [show pyLtChars (env.commitTime e.pname e.pcommit).data
        (env.commitTime e.child.name e.child.revision).data
        = pyStrGt (env.commitTime e.child.name e.child.revision)
          (env.commitTime e.pname e.pcommit) from rfl] at this
    rw [hstr] at this
    cases this

/-- Witness for C5: the scenario-3 run's one traversed edge (parent
`b@B1`, child `a@A2`) satisfies the monotonicity conclusion, and a
child strictly newer than its parent makes the child loop fail. -/
theorem C5_witness :
    (update envC1w rootsC1w 10 = .ok lockC1w sfC1w ∧
     Edge.mk "b" "B1" "200" ⟨"a", "/x/a.git", "A2"⟩ ∈ sfC1w.edges) ∧
    (pyStrGt (envC1w.commitTime "a" "A2") (envC1w.commitTime "b" "B1") = false ∧
     natOfDigits (envC1w.commitTime "a" "A2").data ≤
       natOfDigits (envC1w.commitTime "b" "B1").data) ∧
    processDeps envC1w "0" [⟨"a", "/x/a.git", "A1"⟩] [] [] = .error .depNewer := by
  have h2 := C5_child_monotonicity.2 envC1w rootsC1w 10 lockC1w sfC1w rfl
    (Edge.mk "b" "B1" "200" ⟨"a", "/x/a.git", "A2"⟩) (by decide)
  refine ⟨⟨rfl, by decide⟩, ⟨h2.1, h2.2 (by decide) (by decide) (by decide)⟩, ?_⟩
  exact C5_child_monotonicity.1 envC1w "0" ⟨"a", "/x/a.git", "A1"⟩ [] [] []
    (by decide) (by decide)

/-!
## Claim C2: the type of commit times
-/

/-- A subprocess oracle reporting committer time 9 for commit `h9` and
10 for commit `h10`, exactly as `git log -n1 --format=%ct` prints
them. -/
def envTimes : ProcEnv :=
  ⟨fun args =>
    if args == ["log", "-n1", "--format=%ct", "h9"] then ⟨0, "9\n", ""⟩
    else if args == ["log", "-n1", "--format=%ct", "h10"] then ⟨0, "10\n", ""⟩
    else ⟨0, "0\n", ""⟩⟩

/-- A git oracle under which package `a`'s commit `c` has time
string `"9"`. -/
def envC2g : GitEnv := ⟨fun _ _ => "9", fun _ _ _ => true, fun _ _ => []⟩

/-- **C2, counterexample.** `commit_to_time` returns the committer
time as a string (`"9"`, `"10"`), not an integer, and the resolver's
step-6e comparison of those values is Python string order, which
disagrees with integer order: `"9" > "10"` as strings although
9 ≤ 10 as integers — so a child of time 9 under a parent of time 10
is rejected as "newer than the parent". -/
theorem C2_counterexample :
    commit_to_time envTimes "h9" = .ok "9" ∧
    commit_to_time envTimes "h10" = .ok "10" ∧
    pyStrGt "9" "10" = true ∧
    (9 : Nat) ≤ 10 ∧
    processDeps envC2g "10" [⟨"a", "s", "c"⟩] [] [] = .error .depNewer := by
  exact ⟨rfl, rfl, by decide, by omega, rfl⟩

/-- **C2 (amended).** `commit_to_time` returns the committer epoch
seconds as the STRING printed by `git log -n1 --format=%ct` with
trailing whitespace stripped — not an integer — and the resolver's
comparison of these values (Python string `>`) coincides with the
integer comparison of the denoted values exactly on equal-length
decimal strings (epoch seconds of contemporary commits all have ten
digits, where the two orders agree). -/
theorem C2_commit_time_is_string (env : ProcEnv) (hash : String)
    (hok : (env.run ["log", "-n1", "--format=%ct", hash]).returncode = 0) :
    commit_to_time env hash =
      .ok (pyRstrip (env.run ["log", "-n1", "--format=%ct", hash]).stdout) ∧
    (∀ a b : String, allDigit a.data = true → allDigit b.data = true →
       a.data.length = b.data.length →
       (pyStrGt a b = true ↔ natOfDigits b.data < natOfDigits a.data)) := by
  constructor
  · simp [commit_to_time, git_check, hok]
  · intro a b hda hdb hlen
    show pyLtChars b.data a.data = true ↔ _
    exact pyLtChars_iff_lt b.data a.data hlen.symm hdb hda

/-- Witness for C2 (amended), at the oracle `envTimes` and the
equal-length pair "21", "20". -/
theorem C2_witness :
    (envTimes.run ["log", "-n1", "--format=%ct", "h9"]).returncode = 0 ∧
    commit_to_time envTimes "h9" =
      .ok (pyRstrip (envTimes.run ["log", "-n1", "--format=%ct", "h9"]).stdout) ∧
    (pyStrGt "21" "20" = true ↔ natOfDigits "20".data < natOfDigits "21".data) := by
  have h := C2_commit_time_is_string envTimes "h9" (by decide)
  exact ⟨by decide, h.1, h.2 "21" "20" (by decide) (by decide) (by decide)⟩

/-!
## Claim C3: the NotAncestor check
-/

/-- **C3 (amended).** When the popped tuple's name is already selected
with prior commit `sel.1`: if the selected commit is not a descendant
of the popped commit (`is_ancestor(commit, selected)` false), the loop
raises `NotAncestorError` — the bare, argument-less exception of
workspace.py:16/138, which identifies nothing; otherwise the tuple is
discarded: the selection and everything else except the queue are
unchanged and the loop continues with the next pop. -/
theorem C3_already_selected (env : GitEnv) (s : RState) (it : QItem)
    (sel : String × String) (hq : s.queue.getLast? = some it)
    (hsel : lookupAssoc s.vsm it.name = some sel) :
    (env.isAncestor it.name it.commit sel.1 = false →
       updateStep env s = .fail .notAncestor) ∧
    (env.isAncestor it.name it.commit sel.1 = true →
       updateStep env s = .next { s with queue := s.queue.dropLast }) := by
  constructor
  · intro hanc
    simp [updateStep, hq, hsel, hanc]
  · intro hanc
    simp [updateStep, hq, hsel, hanc]

/-- Environment/roots pair A: root entries `a@c1` (time 100) and
`a@c2` (time 200) with unrelated histories. -/
def envC3a : GitEnv :=
  ⟨fun n c => if n == "a" && c == "c1" then "100" else "200",
   fun _ _ _ => false, fun _ _ => []⟩

def rootsC3a : List DepDecl := [⟨"a", "sa", "c1"⟩, ⟨"a", "sa", "c2"⟩]

/-- Environment/roots pair B: same situation with entirely different
names and commits. -/
def envC3b : GitEnv :=
  ⟨fun n c => if n == "b" && c == "d1" then "100" else "200",
   fun _ _ _ => false, fun _ _ => []⟩

def rootsC3b : List DepDecl := [⟨"b", "sb", "d1"⟩, ⟨"b", "sb", "d2"⟩]

/-- **C3, counterexample.** The NotAncestor failure does not identify
(N, C, S): two resolutions that fail on entirely different triples —
("a","c1","c2") versus ("b","d1","d2") — produce the very same error
value, because workspace.py:138 raises `NotAncestorError` bare. -/
theorem C3_counterexample :
    update envC3a rootsC3a 5 = .err .notAncestor ∧
    update envC3b rootsC3b 5 = .err .notAncestor ∧
    update envC3a rootsC3a 5 = update envC3b rootsC3b 5 ∧
    decide (rootsC3a = rootsC3b) = false :=
  ⟨rfl, rfl, rfl, by decide⟩

/-- A state about to pop `a@c1` while `a` is already selected at
`c2`. -/
def sC3w : RState := ⟨[⟨"100", "c1", "a", "sa"⟩], [("a", ("c2", "sa"))], [], [], []⟩

/-- An oracle whose ancestor check always succeeds. -/
def envAncTrue : GitEnv := ⟨fun _ _ => "0", fun _ _ _ => true, fun _ _ => []⟩

/-- Witness for C3: at the concrete state `sC3w`, the failing branch
raises the bare NotAncestor error and the passing branch discards the
tuple, leaving everything but the queue unchanged. -/
theorem C3_witness :
    sC3w.queue.getLast? = some ⟨"100", "c1", "a", "sa"⟩ ∧
    lookupAssoc sC3w.vsm "a" = some ("c2", "sa") ∧
    updateStep envC3a sC3w = .fail .notAncestor ∧
    updateStep envAncTrue sC3w = .next { sC3w with queue := [] } := by
  have ha := C3_already_selected envC3a sC3w ⟨"100", "c1", "a", "sa"⟩ ("c2", "sa")
    (by decide) (by decide)
  have hb := C3_already_selected envAncTrue sC3w ⟨"100", "c1", "a", "sa"⟩ ("c2", "sa")
    (by decide) (by decide)
  exact ⟨by decide, by decide, ha.1 (by decide), hb.2 (by decide)⟩

/-!
## Claim C4: source conflicts
-/

/-- **C4 (amended).** Source conflicts are detected only on
parent-to-child edges: (i) when the first declaration of a popped
package's dependency list names a package whose recorded source
differs, the child loop exits with the source-conflict failure of
workspace.py:164, and (ii) a run whose current iteration hits a
source-conflict aborts with `UResult.err .sourceConflict`, which
carries no lockfile — nothing is written.  (Conflicting sources
between two root-manifest entries of the same name are NOT detected;
see the counterexample.) -/
theorem C4_source_conflict (env : GitEnv) (s : RState) (it : QItem)
    (t : String) (d : DepDecl) (ds : List DepDecl)
    (q : List QItem) (m : List (String × String)) (src : String) (fuel : Nat)
    (hm : lookupAssoc m d.name = some src) (hne : d.source ≠ src) :
    processDeps env t (d :: ds) q m = .error .sourceConflict ∧
    (s.queue.getLast? = some it →
     lookupAssoc s.vsm it.name = none →
     processDeps env it.time (env.deps it.name it.commit)
       s.queue.dropLast s.sourceMap = .error .sourceConflict →
     runUpdate env (fuel + 1) s = .err .sourceConflict) := by
  constructor
  · have hb : (d.source != src) = true := by
      simp [hne]
    simp [processDeps, hm, hb]
  · intro hq hsel hpd
    have hstep : updateStep env s = .fail .sourceConflict := by
      simp [updateStep, hq, hsel, hpd]
    simp [runUpdate, hstep]

/-- An oracle with constant commit times, permissive ancestry and no
dependencies. -/
def envC4 : GitEnv := ⟨fun _ _ => "100", fun _ _ _ => true, fun _ _ => []⟩

/-- A root manifest declaring the SAME name `a` twice with DIFFERENT
sources. -/
def rootsC4 : List DepDecl := [⟨"a", "/x/a.git", "c1"⟩, ⟨"a", "/y/a.git", "c1"⟩]

/-- The final state of resolving `rootsC4`: resolution succeeds. -/
def sfC4 : RState :=
  { queue := []
    vsm := [("a", ("c1", "/y/a.git"))]
    sourceMap := [("a", "/y/a.git")]
    pushed := [("a", "c1"), ("a", "c1")]
    edges := [] }

/-- **C4, counterexample.** Two dependencies of the same name with
different source strings do NOT always make the resolution fail: when
both are root-manifest entries, the seeding loop of
workspace.py:117-122 silently overwrites `source_map` and the run
succeeds, writing a lockfile (here with the later source winning). -/
theorem C4_counterexample :
    update envC4 rootsC4 5 = .ok [⟨"a", "/y/a.git", "c1"⟩] sfC4 ∧
    rootsC4.map DepDecl.name = ["a", "a"] ∧
    rootsC4.map DepDecl.source = ["/x/a.git", "/y/a.git"] ∧
    decide (("/x/a.git" : String) = "/y/a.git") = false :=
  ⟨rfl, rfl, rfl, by decide⟩

/-- A state whose next pop is package `p@c`, with `a`'s source already
recorded as `/x/a.git`. -/
def sC4w : RState := ⟨[⟨"100", "c", "p", "sp"⟩], [], [("a", "/x/a.git")], [], []⟩

/-- An oracle under which `p`'s manifest declares `a` with the OTHER
source `/y/a.git`. -/
def envC4w : GitEnv :=
  ⟨fun _ _ => "100", fun _ _ _ => true,
   fun n _ => if n == "p" then [⟨"a", "/y/a.git", "c2"⟩] else []⟩

/-- Witness for C4 (amended): a concrete child declaration whose
source conflicts with the recorded one makes the child loop and then
the whole run fail with the source-conflict error. -/
theorem C4_witness :
    lookupAssoc [("a", "/x/a.git")] "a" = some "/x/a.git" ∧
    processDeps envC4w "100" [⟨"a", "/y/a.git", "c2"⟩] [] [("a", "/x/a.git")]
      = .error .sourceConflict ∧
    runUpdate envC4w 3 sC4w = .err .sourceConflict := by
  have h := C4_source_conflict envC4w sC4w ⟨"100", "c", "p", "sp"⟩ "100"
    ⟨"a", "/y/a.git", "c2"⟩ [] [] [("a", "/x/a.git")] "/x/a.git" 2
    (by decide) (by decide)
  exact ⟨by decide, h.1, h.2 (by decide) (by decide) (by exact h.1)⟩

/-!
## Claim C6: revision resolution (`get_commit`)
-/

/-- **C6 (amended).** `get_commit` runs `git rev-parse <r>`; on
failure it retries exactly once with `origin/<r>`; if both attempts
fail it raises the `GitError` produced by `_git_check` for the second
command (arguments, exit status, stdout, stderr) — it does NOT raise
`GitCommitNotFound`, which is declared in gitrepo.py but never raised
there. -/
theorem C6_rev_parse_retry (env : ProcEnv) (r : String) :
    ((env.run ["rev-parse", r]).returncode = 0 →
       get_commit env r = .ok (pyRstrip (env.run ["rev-parse", r]).stdout)) ∧
    ((env.run ["rev-parse", r]).returncode ≠ 0 →
     (env.run ["rev-parse", "origin/" ++ r]).returncode = 0 →
       get_commit env r =
         .ok (pyRstrip (env.run ["rev-parse", "origin/" ++ r]).stdout)) ∧
    ((env.run ["rev-parse", r]).returncode ≠ 0 →
     (env.run ["rev-parse", "origin/" ++ r]).returncode ≠ 0 →
       get_commit env r = .error (.gitError ["rev-parse", "origin/" ++ r]
         (env.run ["rev-parse", "origin/" ++ r]).returncode
         (env.run ["rev-parse", "origin/" ++ r]).stdout
         (env.run ["rev-parse", "origin/" ++ r]).stderr)) := by
  refine ⟨?_, ?_, ?_⟩
  · intro h1
    simp [get_commit, git_check, h1]
  · intro h1 h2
    simp [get_commit, git_check, h1, h2]
  · intro h1 h2
    simp [get_commit, git_check, h1, h2]

/-- A subprocess oracle under which both `rev-parse foo` and
`rev-parse origin/foo` fail. -/
def envRevFail : ProcEnv :=
  ⟨fun args =>
    if args == ["rev-parse", "foo"] then ⟨128, "", "fatal: bad revision\n"⟩
    else if args == ["rev-parse", "origin/foo"] then ⟨128, "", "fatal: bad revision\n"⟩
    else ⟨0, "", ""⟩⟩

/-- **C6, counterexample.** When both rev-parse attempts fail,
`get_commit` raises the plain `GitError` of `_git_check` — not
`GitCommitNotFound`, and nothing in it carries the package name. -/
theorem C6_counterexample :
    get_commit envRevFail "foo" =
      .error (.gitError ["rev-parse", "origin/foo"] 128 "" "fatal: bad revision\n") ∧
    (match get_commit envRevFail "foo" with
     | .error .gitCommitNotFound => true
     | _ => false) = false :=
  ⟨rfl, rfl⟩

/-- A subprocess oracle under which the first rev-parse succeeds. -/
def envRevOk : ProcEnv :=
  ⟨fun args =>
    if args == ["rev-parse", "ref"] then ⟨0, "abc123\n", ""⟩
    else ⟨128, "", "err\n"⟩⟩

/-- Witness for C6 (amended): the first-attempt and the both-fail
branches at concrete oracles. -/
theorem C6_witness :
    (envRevOk.run ["rev-parse", "ref"]).returncode = 0 ∧
    get_commit envRevOk "ref" =
      .ok (pyRstrip (envRevOk.run ["rev-parse", "ref"]).stdout) ∧
    get_commit envRevFail "foo" =
      .error (.gitError ["rev-parse", "origin/foo"] 128 "" "fatal: bad revision\n") := by
  refine ⟨rfl, (C6_rev_parse_retry envRevOk "ref").1 rfl, ?_⟩
  exact (C6_rev_parse_retry envRevFail "foo").2.2 (by decide) (by decide)

/-!
## Claim C7: `fetch` and the BadSource slip
-/

/-- A subprocess oracle under which `git fetch /bad/repo` fails with
the marker text in stderr. -/
def envFetchBad : ProcEnv :=
  ⟨fun args =>
    if args == ["fetch", "/bad/repo"] then
      ⟨128, "", "fatal: '/bad/repo' does not appear to be a git repository\n"⟩
    else ⟨0, "", ""⟩⟩

/-- **C7.** At the failing input — a first fetch whose stderr contains
`does not appear to be a git repository` — `fetch` does NOT produce a
`BadSource` carrying (name, source): workspace code executes the bare
`raise BadSource` of gitrepo.py:78, instantiating the class with zero
arguments although `BadSource.__init__` requires `name` and `source`
(compare `clone` at gitrepo.py:65, which raises it correctly), so
Python raises `TypeError` instead.  When the first fetch succeeds,
`fetch` returns success. -/
theorem C7_fetch_raises_typeerror :
    fetch envFetchBad "/bad/repo" =
      .error (.typeError
        "BadSource.__init__() missing 2 required positional arguments: 'name' and 'source'") ∧
    (match fetch envFetchBad "/bad/repo" with
     | .error (.badSource _ _) => true
     | _ => false) = false ∧
    fetch envFetchBad "/ok" = .ok true :=
  ⟨rfl, rfl, rfl⟩

/-!
## Claim C8: deriving a name from a source path
-/

/-- The characters of the pattern `'.git'`. -/
def gitChars : List Char := ['.', 'g', 'i', 't']

theorem gitChars_eq : ".git".data = gitChars := rfl

theorem isPrefixOf_self : ∀ l : List Char, l.isPrefixOf l = true
  | [] => rfl
  | c :: cs => by simp [List.isPrefixOf, isPrefixOf_self cs]

/-- A list that ends in `pat` contains `pat`. -/
theorem containsSub_append_self (pat : List Char) :
    ∀ t : List Char, containsSub pat (t ++ pat) = true := by
  intro t
  induction t with
  | nil =>
    cases pat with
    | nil => rfl
    | cons c cs => simp [containsSub, isPrefixOf_self]
  | cons c t2 ih => simp [containsSub, ih]

/-- `str.replace` leaves a string without any occurrence of the
pattern unchanged. -/
theorem pyReplaceAux_no_occurrence (pat rep : List Char) :
    ∀ l : List Char, containsSub pat l = false → pyReplaceAux pat rep 0 l = l := by
  intro l
  induction l with
  | nil => intro _; rfl
  | cons c cs ih =>
    intro h
    simp only [containsSub, Bool.or_eq_false_iff] at h
    simp [pyReplaceAux, h.1, ih h.2]

/-- Removing `'.git'` from `t ++ '.git'` yields `t` when `t` itself
contains no occurrence (the pattern cannot straddle the boundary, as
no proper prefix of `'.git'` is one of its suffixes). -/
theorem pyReplaceAux_strip_git :
    ∀ t : List Char, containsSub gitChars t = false →
      pyReplaceAux gitChars [] 0 (t ++ gitChars) = t := by
  intro t
  induction t with
  | nil => intro _; rfl
  | cons c t2 ih =>
    intro h
    simp only [containsSub, Bool.or_eq_false_iff] at h
    have hkey : List.isPrefixOf gitChars (c :: (t2 ++ gitChars)) = false := by
      cases t2 with
      | nil =>
        simp [gitChars, List.isPrefixOf]
      | cons a t3 =>
        cases t3 with
        | nil =>
          simp [gitChars, List.isPrefixOf]
        | cons b t4 =>
          cases t4 with
          | nil =>
            simp [gitChars, List.isPrefixOf]
          | cons e t5 =>
            have hfirst := h.1
            simp only [gitChars, List.isPrefixOf, List.cons_append,
              Bool.and_eq_false_iff] at hfirst ⊢
            simpa using hfirst
    have step : pyReplaceAux gitChars [] 0 ((c :: t2) ++ gitChars)
        = c :: pyReplaceAux gitChars [] 0 (t2 ++ gitChars) := by
      simp [pyReplaceAux, hkey]
    rw [step, ih h.2]

/-- **C8 (amended).** The derived package name equals the final path
segment with EVERY occurrence of the substring `'.git'` removed
(`str.replace` removes all occurrences, not only a trailing one).
The three documented examples hold, and the result coincides with the
spec's trailing-strip rule whenever `'.git'` occurs in the final
segment only as a trailing suffix, or not at all. -/
theorem C8_path_to_name_examples :
    (path_to_name "/a/b/c/def.git" = "def" ∧
     path_to_name "a.git" = "a" ∧
     path_to_name "ghi" = "ghi") ∧
    (∀ p : String, pyContains (pathName p) ".git" = false →
       path_to_name p = pathName p ∧ path_to_name_spec p = pathName p) ∧
    (∀ (p : String) (t : List Char),
       (pathName p).data = t ++ ".git".data →
       containsSub ".git".data t = false →
       path_to_name p = ⟨t⟩ ∧ path_to_name_spec p = ⟨t⟩) := by
  refine ⟨⟨rfl, rfl, rfl⟩, ?_, ?_⟩
  · intro p h
    have hdata : containsSub gitChars (pathName p).data = false := by
      rw [← gitChars_eq]
      exact h
    constructor
    · show String.mk (pyReplaceAux ".git".data "".data 0 (pathName p).data) = pathName p
      rw [gitChars_eq]
      rw [show ("" : String).data = ([] : List Char) from rfl]
      rw [pyReplaceAux_no_occurrence gitChars [] (pathName p).data hdata]
    · have hcond : ((pathName p).data.length ≥ 4 &&
          (pathName p).data.drop ((pathName p).data.length - 4) == ".git".data) = false := by
        by_contra hc
        have htrue : ((pathName p).data.length ≥ 4 &&
            (pathName p).data.drop ((pathName p).data.length - 4) == ".git".data) = true := by
          cases hcc : ((pathName p).data.length ≥ 4 &&
              (pathName p).data.drop ((pathName p).data.length - 4) == ".git".data)
          · exact absurd hcc hc
          · rfl
        rw [Bool.and_eq_true] at htrue
        have hdrop : (pathName p).data.drop ((pathName p).data.length - 4)
            = ".git".data := by
          have := htrue.2
          exact eq_of_beq this
        have hsplit : (pathName p).data
            = (pathName p).data.take ((pathName p).data.length - 4) ++ ".git".data := by
          rw [← hdrop]
          exact (List.take_append_drop _ _).symm
        have : containsSub gitChars (pathName p).data = true := by
          rw [hsplit, gitChars_eq]
          exact containsSub_append_self gitChars _
        rw [this] at hdata
        cases hdata
      simp only [path_to_name_spec, hcond]
      rfl
  · intro p t hb hnc
    have hnc2 : containsSub gitChars t = false := by
      rw [← gitChars_eq]
      exact hnc
    constructor
    · show String.mk (pyReplaceAux ".git".data "".data 0 (pathName p).data) = String.mk t
      rw [gitChars_eq]
      rw [show ("" : String).data = ([] : List Char) from rfl]
      rw [hb, gitChars_eq]
      rw [pyReplaceAux_strip_git t hnc2]
    · have hlen : (pathName p).data.length = t.length + 4 := by
        rw [hb]
        simp
      have hcond : ((pathName p).data.length ≥ 4 &&
          (pathName p).data.drop ((pathName p).data.length - 4) == ".git".data) = true := by
        rw [Bool.and_eq_true]
        constructor
        · simp only [hlen]
          simp
        · rw [hb]
          have hdl : (t ++ ".git".data).length - 4 = t.length := by simp
          rw [hdl]
          rw [show List.drop t.length (t ++ ".git".data) = ".git".data from
            List.drop_left t ".git".data]
          simp
      simp only [path_to_name_spec, hcond, if_true]
      rw [hb]
      have hdl : (t ++ ".git".data).length - 4 = t.length := by simp
      rw [hdl]
      rw [show List.take t.length (t ++ ".git".data) = t from List.take_left t ".git".data]

/-- **C8, counterexample.** `path_to_name` is not "trailing `.git`
stripped and nothing else altered": on `a.gitb`, whose `'.git'`
occurrence is not trailing, it removes the occurrence anyway. -/
theorem C8_counterexample :
    path_to_name "a.gitb" = "ab" ∧
    path_to_name_spec "a.gitb" = "a.gitb" ∧
    decide (path_to_name "a.gitb" = path_to_name_spec "a.gitb") = false :=
  ⟨rfl, rfl, by decide⟩

/-- Witness for C8 (amended): a segment with no occurrence is left
alone, and a segment with only a trailing occurrence is stripped,
matching the spec rule. -/
theorem C8_witness :
    pyContains (pathName "readme") ".git" = false ∧
    path_to_name "readme" = pathName "readme" ∧
    (pathName "x/pkg.git").data = "pkg".data ++ ".git".data ∧
    path_to_name "x/pkg.git" = ⟨"pkg".data⟩ ∧
    path_to_name_spec "x/pkg.git" = ⟨"pkg".data⟩ := by
  have hb := C8_path_to_name_examples.2.1 "readme" (by decide)
  have hc := C8_path_to_name_examples.2.2 "x/pkg.git" "pkg".data (by decide) (by decide)
  exact ⟨by decide, hb.1, by decide, hc.1, hc.2⟩

/-!
## Claim C10: reading a manifest from a commit
-/

/-- A raw manifest entry as parsed from JSON: `name` is optional.
Modelled from the spec: the Dependency data model of spec section 4.2
(the module `lib/wit/manifest.py` is not under src/). -/
structure RawDep where
  name : Option String
  source : String
  commit : String
deriving DecidableEq, Repr

/-- An in-memory manifest: an ordered list of dependency
declarations.  Modelled from the spec: spec section 4.2 (module
`lib/wit/manifest.py` absent from src/). -/
structure Manifest where
  packages : List DepDecl
deriving DecidableEq, Repr

/-- Modelled from the spec: `Manifest.process_manifest` (in the
absent module `lib/wit/manifest.py`): construct from an
already-parsed JSON array; a missing `name` is derived from `source`
by the naming rule (`path_to_name`). -/
def process_manifest (arr : List RawDep) : Manifest :=
  ⟨arr.map (fun r => ⟨r.name.getD (path_to_name r.source), r.source, r.commit⟩)⟩

/-- Embedding of `GitRepo.read_manifest_from_commit`
(gitrepo.py:158-164): run `git show <revision>:wit-manifest.json`
WITHOUT `_git_check`; on any non-zero exit use the empty JSON array in
place of the stdout, otherwise parse the stdout (`json.loads`,
modelled by the `parse` argument, whose error models a `json.loads`
exception); feed the result to `process_manifest`. -/
def read_manifest_from_commit (parse : String → Except String (List RawDep))
    (env : ProcEnv) (revision : String) : Except String Manifest :=
  let proc := env.run ["show", revision ++ ":" ++ "wit-manifest.json"]
  if proc.returncode ≠ 0 then .ok (process_manifest [])
  else
    match parse proc.stdout with
    | .error e => .error e
    | .ok arr => .ok (process_manifest arr)

/-- **C10.** Whenever `git show <rev>:wit-manifest.json` exits
non-zero — for any reason, any parser and any revision —
`read_manifest_from_commit` returns the empty Manifest and never an
error; the result is identical to that for a repository whose
manifest is present and parses to the empty array, so a failed read
is indistinguishable from a leaf package with no dependencies. -/
theorem C10_failed_read_is_leaf
    (parse : String → Except String (List RawDep)) (env env2 : ProcEnv)
    (rev rev2 : String)
    (h : (env.run ["show", rev ++ ":" ++ "wit-manifest.json"]).returncode ≠ 0)
    (h2 : (env2.run ["show", rev2 ++ ":" ++ "wit-manifest.json"]).returncode = 0)
    (h3 : parse (env2.run ["show", rev2 ++ ":" ++ "wit-manifest.json"]).stdout
      = .ok []) :
    read_manifest_from_commit parse env rev = .ok (Manifest.mk []) ∧
    read_manifest_from_commit parse env rev
      = read_manifest_from_commit parse env2 rev2 := by
  have ha : read_manifest_from_commit parse env rev = .ok (Manifest.mk []) := by
    simp [read_manifest_from_commit, h, process_manifest]
  have hb : read_manifest_from_commit parse env2 rev2 = .ok (Manifest.mk []) := by
    simp [read_manifest_from_commit, h2, h3, process_manifest]
  exact ⟨ha, by rw [ha, hb]⟩

/-- A subprocess oracle under which `git show r1:wit-manifest.json`
fails (absent file, unknown revision or corrupt repository alike). -/
def envShowFail : ProcEnv :=
  ⟨fun args =>
    if args == ["show", "r1:wit-manifest.json"] then
      ⟨128, "", "fatal: path 'wit-manifest.json' does not exist in 'r1'\n"⟩
    else ⟨0, "[]", ""⟩⟩

/-- A subprocess oracle whose `git show` always succeeds with the
empty JSON array. -/
def envShowEmpty : ProcEnv := ⟨fun _ => ⟨0, "[]", ""⟩⟩

/-- A parser recognising exactly the empty JSON array. -/
def parseEmpty : String → Except String (List RawDep) :=
  fun s => if s == "[]" then .ok [] else .error "json.loads"

/-- Witness for C10 at concrete oracles: the failed read and the
empty-manifest read coincide. -/
theorem C10_witness :
    (envShowFail.run ["show", "r1" ++ ":" ++ "wit-manifest.json"]).returncode = 128 ∧
    read_manifest_from_commit parseEmpty envShowFail "r1" = .ok (Manifest.mk []) ∧
    read_manifest_from_commit parseEmpty envShowFail "r1"
      = read_manifest_from_commit parseEmpty envShowEmpty "r2" := by
  have h := C10_failed_read_is_leaf parseEmpty envShowFail envShowEmpty "r1" "r2"
    (by decide) (by decide) rfl
  exact ⟨rfl, h.1, h.2⟩
